import Mathlib

/-
Verification of the CNStorageEngine store lifecycle manager (src/main.ts).

The engine keeps a registry `_stores : Map<string, StoreDetails>` from store
name to an open persistence handle plus a last-access timestamp, lazily opens
handles, bumps the access time on every operation, periodically sweeps idle
handles closed, and delegates get/write/del to the handle, translating
persistence failures into boolean/optional results.

Embedding choices:
  * A JS `Map` is an insertion-ordered association list: `set` updates in
    place when the key is present and appends otherwise; `delete` removes
    the (unique) binding; iteration is list order.
  * The leveldb handle is represented by a numeric handle identity (`db`),
    fresh per creation; the persisted bytes live in `disk`, keyed by store
    name (the path `storageDir/name`), so data survives close/reopen.
  * Every fallible persistence call (`db.get/put/del/close`) takes an
    explicit fault oracle: a `Bool` per CRUD call, and a list of store names
    whose `close()` rejects for sweeps/stop.  A rejected promise that the
    code does not `.catch` is modelled by a `Bool` "raised" flag in the
    result (the async method's promise rejects).
  * Timers: `start` records the `setInterval` period in
    `closeStorageTimer`; an event-based `run` fires sweeps only while the
    timer is set.
-/

namespace CNStorageEngine

/-- Association-list lookup, modelling `Map.prototype.get`: first (unique)
binding wins. -/
def alookup {α : Type} : List (String × α) → String → Option α
  | [], _ => none
  | (k', v) :: t, k => if k' = k then some v else alookup t k

/-- Association-list update, modelling `Map.prototype.set`: an existing key
is updated in place (keeping its position), a new key is appended. -/
def aset {α : Type} : List (String × α) → String → α → List (String × α)
  | [], k, v => [(k, v)]
  | (k', v') :: t, k, v =>
      if k' = k then (k', v) :: t else (k', v') :: aset t k v

/-- Association-list removal, modelling `Map.prototype.delete`: removes the
first (unique) binding for the key. -/
def adel {α : Type} : List (String × α) → String → List (String × α)
  | [], _ => []
  | (k', v') :: t, k => if k' = k then t else (k', v') :: adel t k

/-- StoreDetails of src/main.ts: one open named store.  `db` is the handle
identity (fresh per `levelup(leveldown(...))` construction). -/
structure StoreDetails where
  lastAccessed : Int
  name : String
  db : Nat
deriving Repr, DecidableEq

/-- State of a CNStorageEngine instance.  `stores` is `_stores`,
`keepOpenInterval` is `_keepOpenInterval` (milliseconds),
`closeStorageTimer` is `_closeStorageTimer` (`some period` while the
interval timer is armed).  `disk` holds the persisted key/value data of
each store name; `nextId` supplies fresh handle identities; `closeLog`
records every `db.close()` invocation, by handle identity, in order. -/
structure EngineState where
  keepOpenInterval : Int
  closeStorageTimer : Option Int
  stores : List (String × StoreDetails)
  disk : List (String × List (String × String))
  nextId : Nat
  closeLog : List Nat
deriving Repr, DecidableEq

/-- Persisted data of one store name (a never-opened store is empty). -/
def diskStore (d : List (String × List (String × String))) (name : String) :
    List (String × String) :=
  (alookup d name).getD []

/-- Value of `key` in store `name` on disk (`none` = key absent). -/
def diskGet (d : List (String × List (String × String)))
    (name key : String) : Option String :=
  alookup (diskStore d name) key

/-- Effect of a successful `db.put(key, value)` on the disk. -/
def diskPut (d : List (String × List (String × String)))
    (name key value : String) : List (String × List (String × String)) :=
  aset d name (aset (diskStore d name) key value)

/-- Effect of a successful `db.del(key)` on the disk (idempotent). -/
def diskDel (d : List (String × List (String × String)))
    (name key : String) : List (String × List (String × String)) :=
  aset d name (adel (diskStore d name) key)

/-- getStore of src/main.ts: look `name` up in `_stores`; if present, bump
`lastAccessed` to `now` (in-place mutation of the entry) and return it;
otherwise construct a fresh handle, insert a new entry and return it. -/
def getStore (now : Int) (name : String) (st : EngineState) :
    StoreDetails × EngineState :=
  match alookup st.stores name with
  | some details =>
      let d : StoreDetails := { details with lastAccessed := now }
      (d, { st with stores := aset st.stores name d })
  | none =>
      let d : StoreDetails := { lastAccessed := now, name := name, db := st.nextId }
      (d, { st with stores := aset st.stores name d, nextId := st.nextId + 1 })

/-- get of src/main.ts: resolve the store, then `store.db.get(key)` with a
`.catch` that logs and yields `undefined`; `undefined` (absence, and also
any underlying failure, since levelup rejects on a missing key and the
catch absorbs every rejection) becomes `null`; otherwise the value string
is returned.  `fault` says whether the underlying call fails. -/
def get (now : Int) (name key : String) (fault : Bool) (st : EngineState) :
    Option String × EngineState :=
  let p := getStore now name st
  let value : Option String :=
    if fault then none else diskGet p.2.disk p.1.name key
  (value, p.2)

/-- write of src/main.ts: resolve the store, `store.db.put(key, value)`;
the `.catch` logs and sets `written := false`; returns `written`. -/
def write (now : Int) (name key value : String) (fault : Bool)
    (st : EngineState) : Bool × EngineState :=
  let p := getStore now name st
  if fault then (false, p.2)
  else (true, { p.2 with disk := diskPut p.2.disk p.1.name key value })

/-- del of src/main.ts: resolve the store, `store.db.del(key)`; the
`.catch` logs and sets `deleted := false`; returns `deleted`. -/
def del (now : Int) (name key : String) (fault : Bool) (st : EngineState) :
    Bool × EngineState :=
  let p := getStore now name st
  if fault then (false, p.2)
  else (true, { p.2 with disk := diskDel p.2.disk p.1.name key })

/-- Second loop of checkStorage: for each selected entry, invoke
`details.db.close()` (recorded in `closeLog`), then delete it from
`_stores`.  The `await` has no catch, so a rejecting close makes the whole
method's promise reject (`true` in the second component) with the delete of
the failing entry, and all later iterations, never executed. -/
def closeStores (closeFaults : List String) :
    List StoreDetails → EngineState → EngineState × Bool
  | [], st => (st, false)
  | d :: t, st =>
      let st1 := { st with closeLog := st.closeLog ++ [d.db] }
      if d.name ∈ closeFaults then (st1, true)
      else closeStores closeFaults t { st1 with stores := adel st1.stores d.name }

/-- checkStorage of src/main.ts: snapshot of every entry with
`now - lastAccessed > keepOpenInterval`, then close and remove each. -/
def checkStorage (now : Int) (closeFaults : List String) (st : EngineState) :
    EngineState × Bool :=
  let closed :=
    (st.stores.filter
      (fun p => now - p.2.lastAccessed > st.keepOpenInterval)).map Prod.snd
  closeStores closeFaults closed st

/-- start of src/main.ts: arm the `setInterval` timer with period
`_keepOpenInterval` unless that interval is `0`; resolves `true`. -/
def start (st : EngineState) : Bool × EngineState :=
  if st.keepOpenInterval ≠ 0 then
    (true, { st with closeStorageTimer := some st.keepOpenInterval })
  else (true, st)

/-- Close loop of stop: invoke `v.db.close()` on every entry of `_stores`,
in iteration order, without deleting any of them; an uncaught rejection
aborts the loop and rejects stop's promise. -/
def stopCloseAll (closeFaults : List String) :
    List StoreDetails → EngineState → EngineState × Bool
  | [], st => (st, false)
  | d :: t, st =>
      let st1 := { st with closeLog := st.closeLog ++ [d.db] }
      if d.name ∈ closeFaults then (st1, true)
      else stopCloseAll closeFaults t st1

/-- stop of src/main.ts: `clearInterval`, then close every entry's handle.
The map `_stores` is never cleared. -/
def stop (closeFaults : List String) (st : EngineState) :
    EngineState × Bool :=
  stopCloseAll closeFaults (st.stores.map Prod.snd)
    { st with closeStorageTimer := none }

/-- Registry well-formedness: an entry's `name` field equals its map key.
Every entry the code ever inserts satisfies this (getStore stores
`{ name, ... }` under `name`). -/
def WF (st : EngineState) : Prop :=
  ∀ p ∈ st.stores, p.2.name = p.1

instance (st : EngineState) : Decidable (WF st) := by
  unfold WF; infer_instance

/-- Map keys of the registry are unique (a JS `Map` invariant). -/
def KeysNodup (st : EngineState) : Prop :=
  (st.stores.map Prod.fst).Nodup

instance (st : EngineState) : Decidable (KeysNodup st) := by
  unfold KeysNodup; infer_instance

/-- Events a running engine processes: CRUD requests and firings of the
`setInterval` timer.  A firing runs checkStorage only while the timer is
armed; with the timer unarmed (`start` skipped arming it, or `stop`
cleared it) no sweep ever runs. -/
inductive Event where
  | evGet (now : Int) (name key : String) (fault : Bool)
  | evWrite (now : Int) (name key value : String) (fault : Bool)
  | evDel (now : Int) (name key : String) (fault : Bool)
  | evSweep (now : Int) (closeFaults : List String)
deriving Repr, DecidableEq

/-- One event against the engine state. -/
def step (st : EngineState) (e : Event) : EngineState :=
  match e with
  | .evGet now n k f => (get now n k f st).2
  | .evWrite now n k v f => (write now n k v f st).2
  | .evDel now n k f => (del now n k f st).2
  | .evSweep now cf =>
      match st.closeStorageTimer with
      | none => st
      | some _ => (checkStorage now cf st).1

/-- A sequence of events against the engine state. -/
def run (st : EngineState) (es : List Event) : EngineState :=
  es.foldl step st

/-- JS `String.prototype.split` with a one-character separator, taken on
the character list of the string: `"a:b:c"` becomes `["a","b","c"]`,
`":x"` becomes `["","x"]`, `""` becomes `[""]`. -/
def splitChar (sep : Char) : List Char → List (List Char)
  | [] => [[]]
  | c :: t =>
      if c = sep then [] :: splitChar sep t
      else
        match splitChar sep t with
        | [] => [[c]]
        | h :: r => (c :: h) :: r

/-- Outcome of a route handler: a payload, or a thrown HttpError with
`status` and `message`. -/
inductive RouteResult (α : Type) where
  | ok (value : α)
  | httpError (status : Nat) (message : String)
deriving Repr, DecidableEq

/-- Handler installed by setupReadRoute of src/main.ts: reject a missing
id; split the id on `":"` and reject when `parts[1]` is undefined
(`parts[0]` never is, a JS split is never empty); call `get` with
`parts[0]` and `parts[1]`; map a `null` result to a 404 and a value to the
payload. -/
def readRoute (idOpt : Option String) (now : Int) (fault : Bool)
    (st : EngineState) : RouteResult String × EngineState :=
  match idOpt with
  | none => (.httpError 404 "No ID specified!", st)
  | some id =>
      match splitChar ':' id.toList with
      | p0 :: p1 :: _ =>
          let r := get now (String.mk p0) (String.mk p1) fault st
          match r.1 with
          | none => (.httpError 404 "Ooops - can't find that key!", r.2)
          | some v => (.ok v, r.2)
      | _ => (.httpError 404 "Invalid ID!", st)

/-- Handler installed by setupDeleteRoute of src/main.ts: same id handling
as the read route, then `del`; a `false` result becomes a 500. -/
def deleteRoute (idOpt : Option String) (now : Int) (fault : Bool)
    (st : EngineState) : RouteResult Unit × EngineState :=
  match idOpt with
  | none => (.httpError 404 "Invalid ID!", st)
  | some id =>
      match splitChar ':' id.toList with
      | p0 :: p1 :: _ =>
          let r := del now (String.mk p0) (String.mk p1) fault st
          if r.1 = false then
            (.httpError 500 "Ooops - we have had a problem", r.2)
          else (.ok (), r.2)
      | _ => (.httpError 404 "Invalid ID", st)

/-- Engine state fresh from the constructor (before start), with idle
threshold `t` milliseconds. -/
def initState (t : Int) : EngineState :=
  { keepOpenInterval := t, closeStorageTimer := none, stores := [],
    disk := [], nextId := 0, closeLog := [] }

/-- A started engine with threshold 10 and two stores "a" and "b", both
last accessed at time 0. -/
def twoIdle : EngineState :=
  { keepOpenInterval := 10, closeStorageTimer := some 10,
    stores := [("a", { lastAccessed := 0, name := "a", db := 0 }),
               ("b", { lastAccessed := 0, name := "b", db := 1 })],
    disk := [], nextId := 2, closeLog := [] }

/-- An engine with a single open store "s". -/
def oneOpen : EngineState :=
  { keepOpenInterval := 0, closeStorageTimer := none,
    stores := [("s", { lastAccessed := 0, name := "s", db := 0 })],
    disk := [], nextId := 1, closeLog := [] }

/-- An engine whose store "a" persists the keys "b" and "b:c". -/
def colonData : EngineState :=
  { keepOpenInterval := 0, closeStorageTimer := none, stores := [],
    disk := [("a", [("b", "vb"), ("b:c", "vbc")])], nextId := 0,
    closeLog := [] }

/-! Association-list lemmas. -/

theorem alookup_aset_self {α : Type} (l : List (String × α)) (k : String) (v : α) :
    alookup (aset l k v) k = some v := by
  induction l with
  | nil => simp [aset, alookup]
  | cons h t ih =>
      obtain ⟨k', v'⟩ := h
      by_cases hk : k' = k
      · simp [aset, hk, alookup]
      · simp [aset, hk, alookup, ih]

theorem alookup_aset_ne {α : Type} (l : List (String × α)) (k k' : String) (v : α)
    (h : k' ≠ k) : alookup (aset l k v) k' = alookup l k' := by
  induction l with
  | nil =>
      simp only [aset, alookup]
      rw [if_neg (fun hh => h hh.symm)]
  | cons hd t ih =>
      obtain ⟨k₀, v₀⟩ := hd
      by_cases hk : k₀ = k
      · subst hk
        simp only [aset, if_pos rfl, alookup]
        rw [if_neg (fun hh => h hh.symm), if_neg (fun hh => h hh.symm)]
      · simp only [aset, if_neg hk, alookup]
        by_cases hk' : k₀ = k'
        · simp [hk']
        · simp [hk', ih]

theorem isSome_alookup_aset {α : Type} (l : List (String × α)) (k n : String) (v : α)
    (h : (alookup l n).isSome) : (alookup (aset l k v) n).isSome := by
  by_cases hk : n = k
  · subst hk; simp [alookup_aset_self]
  · rw [alookup_aset_ne l k n v hk]; exact h

theorem alookup_adel_ne {α : Type} (l : List (String × α)) (k k' : String)
    (h : k' ≠ k) : alookup (adel l k) k' = alookup l k' := by
  induction l with
  | nil => simp [adel]
  | cons hd t ih =>
      obtain ⟨k₀, v₀⟩ := hd
      by_cases hk : k₀ = k
      · subst hk
        have h1 : adel ((k₀, v₀) :: t) k₀ = t := by simp [adel]
        rw [h1]
        simp only [alookup]
        rw [if_neg (fun hh => h hh.symm)]
      · simp only [adel, if_neg hk, alookup]
        by_cases hk' : k₀ = k'
        · simp [hk']
        · simp [hk', ih]

theorem adel_sublist {α : Type} (l : List (String × α)) (k : String) :
    (adel l k).Sublist l := by
  induction l with
  | nil => simp [adel]
  | cons hd t ih =>
      obtain ⟨k₀, v₀⟩ := hd
      by_cases hk : k₀ = k
      · simp [adel, hk]
      · simpa [adel, hk] using ih

theorem adel_eq_filter {α : Type} (l : List (String × α)) (k : String)
    (h : (l.map Prod.fst).Nodup) :
    adel l k = l.filter (fun p => p.1 ≠ k) := by
  induction l with
  | nil => simp [adel]
  | cons hd t ih =>
      obtain ⟨k₀, v₀⟩ := hd
      simp only [List.map_cons, List.nodup_cons] at h
      by_cases hk : k₀ = k
      · subst hk
        have hfil : t.filter (fun p => !decide (p.1 = k₀)) = t := by
          apply List.filter_eq_self.mpr
          intro p hp
          simp only [Bool.not_eq_true', decide_eq_false_iff_not]
          intro hpk
          exact h.1 (hpk ▸ List.mem_map_of_mem Prod.fst hp)
        simp [adel, hfil]
      · simp [adel, hk, ih h.2]

theorem alookup_mem {α : Type} (l : List (String × α)) (k : String) (v : α)
    (h : alookup l k = some v) : (k, v) ∈ l := by
  induction l with
  | nil => simp [alookup] at h
  | cons hd t ih =>
      obtain ⟨k₀, v₀⟩ := hd
      by_cases hk : k₀ = k
      · subst hk
        have h' : v₀ = v := by simpa [alookup] using h
        subst h'
        exact List.mem_cons_self _ _
      · simp only [alookup, if_neg hk] at h
        exact List.mem_cons_of_mem _ (ih h)

theorem mem_aset {α : Type} (l : List (String × α)) (k : String) (v : α)
    (p : String × α) (h : p ∈ aset l k v) : p = (k, v) ∨ p ∈ l := by
  induction l with
  | nil => simpa [aset] using h
  | cons hd t ih =>
      obtain ⟨k₀, v₀⟩ := hd
      by_cases hk : k₀ = k
      · subst hk
        rw [show aset ((k₀, v₀) :: t) k₀ v = (k₀, v) :: t by simp [aset]] at h
        rcases List.mem_cons.mp h with h1 | h1
        · exact Or.inl h1
        · exact Or.inr (List.mem_cons_of_mem _ h1)
      · rw [show aset ((k₀, v₀) :: t) k v = (k₀, v₀) :: aset t k v by
              simp [aset, hk]] at h
        rcases List.mem_cons.mp h with h1 | h1
        · exact Or.inr (h1 ▸ List.mem_cons_self _ _)
        · rcases ih h1 with h2 | h2
          · exact Or.inl h2
          · exact Or.inr (List.mem_cons_of_mem _ h2)

/-! State-shape lemmas for getStore and the CRUD operations. -/

theorem getStore_frame (now : Int) (name : String) (st : EngineState) :
    (getStore now name st).2.keepOpenInterval = st.keepOpenInterval ∧
    (getStore now name st).2.closeStorageTimer = st.closeStorageTimer ∧
    (getStore now name st).2.disk = st.disk ∧
    (getStore now name st).2.closeLog = st.closeLog := by
  unfold getStore
  cases alookup st.stores name <;> simp

theorem getStore_stores (now : Int) (name : String) (st : EngineState) :
    (getStore now name st).2.stores =
      aset st.stores name (getStore now name st).1 := by
  unfold getStore
  cases alookup st.stores name <;> simp

theorem getStore_lastAccessed (now : Int) (name : String) (st : EngineState) :
    (getStore now name st).1.lastAccessed = now := by
  unfold getStore
  cases alookup st.stores name <;> simp

theorem getStore_name (now : Int) (name : String) (st : EngineState)
    (hwf : WF st) : (getStore now name st).1.name = name := by
  unfold getStore
  cases hl : alookup st.stores name with
  | none => simp
  | some d =>
      simp only
      exact hwf (name, d) (alookup_mem st.stores name d hl)

theorem WF_getStore (now : Int) (name : String) (st : EngineState)
    (hwf : WF st) : WF (getStore now name st).2 := by
  intro p hp
  rw [getStore_stores] at hp
  rcases mem_aset _ _ _ _ hp with h | h
  · subst h
    exact getStore_name now name st hwf
  · exact hwf p h

theorem get_snd (now : Int) (name key : String) (fault : Bool)
    (st : EngineState) : (get now name key fault st).2 = (getStore now name st).2 :=
  rfl

theorem write_snd_stores (now : Int) (name key value : String) (fault : Bool)
    (st : EngineState) :
    (write now name key value fault st).2.stores = (getStore now name st).2.stores ∧
    (write now name key value fault st).2.closeStorageTimer = st.closeStorageTimer ∧
    (write now name key value fault st).2.closeLog = st.closeLog := by
  unfold write
  rcases (getStore_frame now name st) with ⟨_, h2, _, h4⟩
  cases fault <;> simp [h2, h4]

theorem del_snd_stores (now : Int) (name key : String) (fault : Bool)
    (st : EngineState) :
    (del now name key fault st).2.stores = (getStore now name st).2.stores ∧
    (del now name key fault st).2.closeStorageTimer = st.closeStorageTimer ∧
    (del now name key fault st).2.closeLog = st.closeLog := by
  unfold del
  rcases (getStore_frame now name st) with ⟨_, h2, _, h4⟩
  cases fault <;> simp [h2, h4]

theorem write_disk (now : Int) (name key value : String) (st : EngineState)
    (hwf : WF st) :
    (write now name key value false st).2.disk = diskPut st.disk name key value := by
  unfold write
  simp only [Bool.false_eq_true, if_false]
  rw [(getStore_frame now name st).2.2.1, getStore_name now name st hwf]

theorem write_fst (now : Int) (name key value : String) (fault : Bool)
    (st : EngineState) : (write now name key value fault st).1 = !fault := by
  unfold write
  cases fault <;> simp

theorem del_fst (now : Int) (name key : String) (fault : Bool)
    (st : EngineState) : (del now name key fault st).1 = !fault := by
  unfold del
  cases fault <;> simp

theorem get_fst (now : Int) (name key : String) (fault : Bool)
    (st : EngineState) (hwf : WF st) :
    (get now name key fault st).1 =
      if fault then none else diskGet st.disk name key := by
  show (if fault then none
        else diskGet (getStore now name st).2.disk (getStore now name st).1.name key) =
    if fault then none else diskGet st.disk name key
  rw [(getStore_frame now name st).2.2.1, getStore_name now name st hwf]

/-! Sweep and shutdown machinery. -/

theorem closeStores_ok (faults : List String) :
    ∀ (l : List StoreDetails), (∀ d ∈ l, d.name ∉ faults) →
    ∀ st : EngineState, closeStores faults l st =
      ({ st with stores := l.foldl (fun s d => adel s d.name) st.stores,
                 closeLog := st.closeLog ++ l.map (fun d => d.db) }, false) := by
  intro l
  induction l with
  | nil => intro _ st; simp [closeStores]
  | cons d t ih =>
      intro hok st
      have hd : d.name ∉ faults := hok d (List.mem_cons_self _ _)
      rw [show closeStores faults (d :: t) st =
            closeStores faults t
              { st with stores := adel st.stores d.name,
                        closeLog := st.closeLog ++ [d.db] } by
            simp [closeStores, hd]]
      rw [ih (fun x hx => hok x (List.mem_cons_of_mem _ hx))]
      simp

theorem closeStores_fault (faults : List String) :
    ∀ (pre : List StoreDetails) (bad : StoreDetails) (post : List StoreDetails),
    (∀ d ∈ pre, d.name ∉ faults) → bad.name ∈ faults →
    ∀ st : EngineState, closeStores faults (pre ++ bad :: post) st =
      ({ (closeStores faults pre st).1 with
          closeLog := (closeStores faults pre st).1.closeLog ++ [bad.db] }, true) := by
  intro pre
  induction pre with
  | nil =>
      intro bad post _ hbad st
      simp [closeStores, hbad]
  | cons d t ih =>
      intro bad post hok hbad st
      have hd : d.name ∉ faults := hok d (List.mem_cons_self _ _)
      rw [List.cons_append]
      rw [show closeStores faults (d :: (t ++ bad :: post)) st =
            closeStores faults (t ++ bad :: post)
              { st with stores := adel st.stores d.name,
                        closeLog := st.closeLog ++ [d.db] } by
            simp [closeStores, hd]]
      rw [ih bad post (fun x hx => hok x (List.mem_cons_of_mem _ hx)) hbad]
      rw [show closeStores faults (d :: t) st =
            closeStores faults t
              { st with stores := adel st.stores d.name,
                        closeLog := st.closeLog ++ [d.db] } by
            simp [closeStores, hd]]

theorem stopCloseAll_ok (faults : List String) :
    ∀ (l : List StoreDetails), (∀ d ∈ l, d.name ∉ faults) →
    ∀ st : EngineState, stopCloseAll faults l st =
      ({ st with closeLog := st.closeLog ++ l.map (fun d => d.db) }, false) := by
  intro l
  induction l with
  | nil => intro _ st; simp [stopCloseAll]
  | cons d t ih =>
      intro hok st
      have hd : d.name ∉ faults := hok d (List.mem_cons_self _ _)
      rw [show stopCloseAll faults (d :: t) st =
            stopCloseAll faults t { st with closeLog := st.closeLog ++ [d.db] } by
            simp [stopCloseAll, hd]]
      rw [ih (fun x hx => hok x (List.mem_cons_of_mem _ hx))]
      simp

theorem adel_keys_nodup {α : Type} (l : List (String × α)) (k : String)
    (h : (l.map Prod.fst).Nodup) : ((adel l k).map Prod.fst).Nodup :=
  h.sublist ((adel_sublist l k).map Prod.fst)

theorem foldl_adel_eq_filter {α : Type} :
    ∀ (names : List String) (l : List (String × α)),
      (l.map Prod.fst).Nodup →
      names.foldl (fun s n => adel s n) l = l.filter (fun p => p.1 ∉ names) := by
  intro names
  induction names with
  | nil => intro l _; simp
  | cons n ns ih =>
      intro l h
      simp only [List.foldl_cons]
      rw [ih (adel l n) (adel_keys_nodup l n h), adel_eq_filter l n h,
        List.filter_filter]
      apply List.filter_congr
      intro p _
      simp only [List.mem_cons, not_or, ne_eq]
      rcases Decidable.em (p.1 = n) with h1 | h1 <;>
        rcases Decidable.em (p.1 ∈ ns) with h2 | h2 <;> simp [h1, h2]

theorem keys_nodup_inj {α : Type} :
    ∀ (l : List (String × α)), (l.map Prod.fst).Nodup →
      ∀ p q : String × α, p ∈ l → q ∈ l → p.1 = q.1 → p = q := by
  intro l
  induction l with
  | nil => intro _ p q hp; simp at hp
  | cons hd t ih =>
      intro h p q hp hq hpq
      simp only [List.map_cons, List.nodup_cons] at h
      rcases List.mem_cons.mp hp with hp1 | hp1 <;>
        rcases List.mem_cons.mp hq with hq1 | hq1
      · rw [hp1, hq1]
      · exfalso
        apply h.1
        have he : hd.1 = q.1 := by rw [← hp1, hpq]
        rw [he]
        exact List.mem_map_of_mem Prod.fst hq1
      · exfalso
        apply h.1
        have he : hd.1 = p.1 := by rw [← hq1, ← hpq]
        rw [he]
        exact List.mem_map_of_mem Prod.fst hp1
      · exact ih h.2 p q hp1 hq1 hpq

theorem mem_filter_keys_iff {α : Type} (l : List (String × α))
    (sel : (String × α) → Bool) (h : (l.map Prod.fst).Nodup)
    (p : String × α) (hp : p ∈ l) :
    p.1 ∈ (l.filter sel).map Prod.fst ↔ sel p = true := by
  constructor
  · intro hm
    obtain ⟨q, hq, hqe⟩ := List.mem_map.mp hm
    have hq' := List.mem_filter.mp hq
    have hqp : q = p := keys_nodup_inj l h q p hq'.1 hp hqe
    exact hqp ▸ hq'.2
  · intro hs
    exact List.mem_map_of_mem Prod.fst (List.mem_filter.mpr ⟨hp, hs⟩)

theorem alookup_filter_keep {α : Type} (pred : (String × α) → Bool)
    (n : String) (d : α) :
    ∀ l : List (String × α), alookup l n = some d → pred (n, d) = true →
    alookup (l.filter pred) n = some d := by
  intro l
  induction l with
  | nil => intro h; simp [alookup] at h
  | cons hd t ih =>
      obtain ⟨k₀, v₀⟩ := hd
      intro h hkeep
      by_cases hk : k₀ = n
      · subst hk
        have hv : v₀ = d := by simpa [alookup] using h
        subst hv
        rw [List.filter_cons, if_pos hkeep]
        simp [alookup]
      · simp only [alookup, if_neg hk] at h
        rw [List.filter_cons]
        by_cases hpr : pred (k₀, v₀) = true
        · rw [if_pos hpr]
          simpa [alookup, hk] using ih h hkeep
        · rw [if_neg hpr]
          exact ih h hkeep

theorem alookup_foldl_adel_ne {α : Type} :
    ∀ (names : List String) (l : List (String × α)) (n : String), n ∉ names →
      alookup (names.foldl (fun s m => adel s m) l) n = alookup l n := by
  intro names
  induction names with
  | nil => intro l n _; simp
  | cons m ms ih =>
      intro l n hn
      simp only [List.mem_cons, not_or] at hn
      simp only [List.foldl_cons]
      rw [ih (adel l m) n hn.2, alookup_adel_ne l m n hn.1]

/-! Disk lemmas. -/

theorem diskGet_diskPut_self (d : List (String × List (String × String)))
    (name key value : String) :
    diskGet (diskPut d name key value) name key = some value := by
  unfold diskGet diskPut diskStore
  rw [alookup_aset_self]
  simp only [Option.getD_some]
  rw [alookup_aset_self]

theorem diskGet_diskPut_ne (d : List (String × List (String × String)))
    (n n' key key' value : String) (h : n' ≠ n) :
    diskGet (diskPut d n key value) n' key' = diskGet d n' key' := by
  unfold diskGet diskPut diskStore
  rw [alookup_aset_ne _ _ _ _ h]

theorem WF_write (now : Int) (name key value : String) (fault : Bool)
    (st : EngineState) (hwf : WF st) :
    WF (write now name key value fault st).2 := by
  intro p hp
  rw [(write_snd_stores now name key value fault st).1] at hp
  exact WF_getStore now name st hwf p hp

/-! splitChar lemmas. -/

theorem splitChar_no_sep (sep : Char) :
    ∀ l : List Char, sep ∉ l → splitChar sep l = [l] := by
  intro l
  induction l with
  | nil => intro _; rfl
  | cons c t ih =>
      intro h
      simp only [List.mem_cons, not_or] at h
      have hc : ¬ c = sep := fun hh => h.1 hh.symm
      rw [show splitChar sep (c :: t) =
            (match splitChar sep t with
             | [] => [[c]]
             | h :: r => (c :: h) :: r) by simp [splitChar, hc]]
      rw [ih h.2]

theorem splitChar_first (sep : Char) :
    ∀ (l r : List Char), sep ∉ l →
      splitChar sep (l ++ sep :: r) = l :: splitChar sep r := by
  intro l
  induction l with
  | nil => intro r _; simp [splitChar]
  | cons c t ih =>
      intro r h
      simp only [List.mem_cons, not_or] at h
      have hc : ¬ c = sep := fun hh => h.1 hh.symm
      rw [List.cons_append]
      rw [show splitChar sep (c :: (t ++ sep :: r)) =
            (match splitChar sep (t ++ sep :: r) with
             | [] => [[c]]
             | h :: rr => (c :: h) :: rr) by simp [splitChar, hc]]
      rw [ih r h.2]

/-! Registry frame lemmas. -/

theorem getStore_registry_frame (now : Int) (n m : String) (st : EngineState)
    (hm : m ≠ n) :
    (∀ x, (alookup st.stores x).isSome →
      (alookup (getStore now n st).2.stores x).isSome) ∧
    (∀ d, alookup st.stores n = some d →
      ∃ d', alookup (getStore now n st).2.stores n = some d' ∧ d'.db = d.db) ∧
    alookup (getStore now n st).2.stores m = alookup st.stores m := by
  refine ⟨?_, ?_, ?_⟩
  · intro x hx
    rw [getStore_stores]
    exact isSome_alookup_aset _ _ _ _ hx
  · intro d hd
    refine ⟨(getStore now n st).1, ?_, ?_⟩
    · rw [getStore_stores]
      exact alookup_aset_self _ _ _
    · unfold getStore
      rw [hd]
  · rw [getStore_stores]
    exact alookup_aset_ne _ _ _ _ hm

/-! Run lemmas: with the sweep timer unarmed, no event ever closes a
handle or removes a registry entry. -/

theorem step_timer_none (st : EngineState) (e : Event)
    (ht : st.closeStorageTimer = none) :
    (step st e).closeStorageTimer = none ∧
    (step st e).closeLog = st.closeLog ∧
    ∀ n, (alookup st.stores n).isSome → (alookup (step st e).stores n).isSome := by
  cases e with
  | evGet now n k f =>
      have hstep : step st (Event.evGet now n k f) = (get now n k f st).2 := rfl
      rw [hstep, get_snd]
      refine ⟨?_, ?_, ?_⟩
      · rw [(getStore_frame now n st).2.1]; exact ht
      · exact (getStore_frame now n st).2.2.2
      · intro x hx
        rw [getStore_stores]
        exact isSome_alookup_aset _ _ _ _ hx
  | evWrite now n k v f =>
      have hstep : step st (Event.evWrite now n k v f) = (write now n k v f st).2 := rfl
      rw [hstep]
      refine ⟨?_, ?_, ?_⟩
      · rw [(write_snd_stores now n k v f st).2.1]; exact ht
      · exact (write_snd_stores now n k v f st).2.2
      · intro x hx
        rw [(write_snd_stores now n k v f st).1, getStore_stores]
        exact isSome_alookup_aset _ _ _ _ hx
  | evDel now n k f =>
      have hstep : step st (Event.evDel now n k f) = (del now n k f st).2 := rfl
      rw [hstep]
      refine ⟨?_, ?_, ?_⟩
      · rw [(del_snd_stores now n k f st).2.1]; exact ht
      · exact (del_snd_stores now n k f st).2.2
      · intro x hx
        rw [(del_snd_stores now n k f st).1, getStore_stores]
        exact isSome_alookup_aset _ _ _ _ hx
  | evSweep now cf =>
      have hstep : step st (Event.evSweep now cf) =
          (match st.closeStorageTimer with
           | none => st
           | some _ => (checkStorage now cf st).1) := rfl
      rw [hstep, ht]
      exact ⟨ht, rfl, fun n h => h⟩

theorem run_timer_none (es : List Event) :
    ∀ st : EngineState, st.closeStorageTimer = none →
    (run st es).closeStorageTimer = none ∧
    (run st es).closeLog = st.closeLog ∧
    ∀ n, (alookup st.stores n).isSome → (alookup (run st es).stores n).isSome := by
  induction es with
  | nil => intro st ht; exact ⟨ht, rfl, fun n h => h⟩
  | cons e t ih =>
      intro st ht
      have hs := step_timer_none st e ht
      have hr := ih (step st e) hs.1
      exact ⟨hr.1, hr.2.1.trans hs.2.1, fun n h => hr.2.2 n (hs.2.2 n h)⟩

theorem alookup_foldl_adel_details_ne :
    ∀ (l : List StoreDetails) (s : List (String × StoreDetails)) (n : String),
      n ∉ l.map (fun d => d.name) →
      alookup (l.foldl (fun acc d => adel acc d.name) s) n = alookup s n := by
  intro l
  induction l with
  | nil => intro s n _; rfl
  | cons d t ih =>
      intro s n hn
      simp only [List.map_cons, List.mem_cons, not_or] at hn
      simp only [List.foldl_cons]
      rw [ih (adel s d.name) n hn.2, alookup_adel_ne s d.name n hn.1]

theorem foldl_adel_pairs_eq_filter {α : Type} :
    ∀ (names : List (String × α)) (l : List (String × α)),
      (l.map Prod.fst).Nodup →
      names.foldl (fun s p => adel s p.1) l =
        l.filter (fun q => q.1 ∉ names.map Prod.fst) := by
  intro names
  induction names with
  | nil => intro l _; simp
  | cons p ps ih =>
      intro l h
      simp only [List.foldl_cons, List.map_cons]
      rw [ih (adel l p.1) (adel_keys_nodup l p.1 h), adel_eq_filter l p.1 h,
        List.filter_filter]
      apply List.filter_congr
      intro q _
      simp only [List.mem_cons, not_or, ne_eq]
      rcases Decidable.em (q.1 = p.1) with h1 | h1 <;>
        rcases Decidable.em (q.1 ∈ ps.map Prod.fst) with h2 | h2 <;>
          simp [h1, h2]

theorem sweep_fold_eq_filter (now : Int) (st : EngineState) (hwf : WF st)
    (hnd : KeysNodup st) :
    ((st.stores.filter
        (fun p => now - p.2.lastAccessed > st.keepOpenInterval)).map
      Prod.snd).foldl (fun s d => adel s d.name) st.stores =
    st.stores.filter
      (fun p => ¬ now - p.2.lastAccessed > st.keepOpenInterval) := by
  rw [List.foldl_map]
  rw [List.foldl_ext _ (fun s (p : String × StoreDetails) => adel s p.1)
        st.stores
        (fun a b hb => by rw [hwf b (List.mem_of_mem_filter hb)])]
  rw [foldl_adel_pairs_eq_filter _ st.stores hnd]
  apply List.filter_congr
  intro q hq
  have hiff := mem_filter_keys_iff st.stores
    (fun p => decide (now - p.2.lastAccessed > st.keepOpenInterval)) hnd q hq
  rcases Decidable.em
      (now - q.2.lastAccessed > st.keepOpenInterval) with h1 | h1 <;>
    simp [hiff, h1]

/-! Claim theorems. -/

/-- C1: a successful `write s k v` makes a subsequent fault-free
`get s k` return `v`, and for every other store name `s2 ≠ s` the value a
`get s2 k` returns is unaffected by the write (per-name persistence
namespaces are disjoint). -/
theorem claim1_create_then_read_and_isolation (now1 now2 : Int)
    (s k v : String) (f : Bool) (st : EngineState) (hwf : WF st)
    (hsucc : (write now1 s k v f st).1 = true) :
    (get now2 s k false (write now1 s k v f st).2).1 = some v ∧
    ∀ s2 : String, s2 ≠ s → ∀ (now3 : Int) (f2 : Bool),
      (get now3 s2 k f2 (write now1 s k v f st).2).1 =
        (get now3 s2 k f2 st).1 := by
  have hf : f = false := by
    rw [write_fst] at hsucc
    cases f
    · rfl
    · simp at hsucc
  subst hf
  have hwf1 : WF (write now1 s k v false st).2 :=
    WF_write now1 s k v false st hwf
  have hdisk : (write now1 s k v false st).2.disk = diskPut st.disk s k v :=
    write_disk now1 s k v st hwf
  constructor
  · rw [get_fst now2 s k false _ hwf1]
    simp only [Bool.false_eq_true, if_false]
    rw [hdisk, diskGet_diskPut_self]
  · intro s2 hs2 now3 f2
    rw [get_fst now3 s2 k f2 _ hwf1, get_fst now3 s2 k f2 st hwf, hdisk,
      diskGet_diskPut_ne st.disk s s2 k k v hs2]

/-- Witness for C1: on a fresh engine, `write "s1" "k1" "v1"` succeeds,
the subsequent read returns `"v1"`, and reads under any other store name
are unaffected. -/
theorem claim1_witness :
    WF (initState 0) ∧
    (write 0 "s1" "k1" "v1" false (initState 0)).1 = true ∧
    ((get 1 "s1" "k1" false (write 0 "s1" "k1" "v1" false (initState 0)).2).1 =
        some "v1" ∧
      ∀ s2 : String, s2 ≠ "s1" → ∀ (now3 : Int) (f2 : Bool),
        (get now3 s2 "k1" f2 (write 0 "s1" "k1" "v1" false (initState 0)).2).1 =
          (get now3 s2 "k1" f2 (initState 0)).1) :=
  ⟨by decide, by decide,
    claim1_create_then_read_and_isolation 0 1 "s1" "k1" "v1" false
      (initState 0) (by decide) (by decide)⟩

/-- C5: for a non-empty name, after getStore returns the entry for that
name is present in the registry with `lastAccessed = now`; an existing
entry is reused (same handle, same name), a missing one is created with
the fresh handle.  getStore is a total function: the operation itself
signals no error. -/
theorem claim5_resolve (now : Int) (name : String) (st : EngineState)
    (_hname : name ≠ "") :
    alookup (getStore now name st).2.stores name =
      some (getStore now name st).1 ∧
    (getStore now name st).1.lastAccessed = now ∧
    (∀ d, alookup st.stores name = some d →
      (getStore now name st).1.db = d.db ∧
      (getStore now name st).1.name = d.name) ∧
    (alookup st.stores name = none →
      (getStore now name st).1 =
        { lastAccessed := now, name := name, db := st.nextId }) := by
  refine ⟨?_, getStore_lastAccessed now name st, ?_, ?_⟩
  · rw [getStore_stores]
    exact alookup_aset_self _ _ _
  · intro d hd
    unfold getStore
    rw [hd]
    exact ⟨rfl, rfl⟩
  · intro hn
    unfold getStore
    rw [hn]

/-- Witness for C5 on an engine with an existing store "s". -/
theorem claim5_witness :
    ("s" : String) ≠ "" ∧
    (alookup (getStore 5 "s" oneOpen).2.stores "s" =
        some (getStore 5 "s" oneOpen).1 ∧
      (getStore 5 "s" oneOpen).1.lastAccessed = 5 ∧
      (∀ d, alookup oneOpen.stores "s" = some d →
        (getStore 5 "s" oneOpen).1.db = d.db ∧
        (getStore 5 "s" oneOpen).1.name = d.name) ∧
      (alookup oneOpen.stores "s" = none →
        (getStore 5 "s" oneOpen).1 =
          { lastAccessed := 5, name := "s", db := oneOpen.nextId })) :=
  ⟨by decide, claim5_resolve 5 "s" oneOpen (by decide)⟩

/-- C6: `get` is a total operation returning an optional value, never an
exception: with no underlying fault it returns the stored value, or the
null sentinel when the key is absent; on an underlying fault the `.catch`
absorbs the rejection and `get` returns the same null sentinel,
indistinguishable from absence. -/
theorem claim6_get_collapses (now : Int) (name key : String) (fault : Bool)
    (st : EngineState) (hwf : WF st) :
    (get now name key fault st).1 =
      (if fault then none else diskGet st.disk name key) ∧
    (fault = true → (get now name key fault st).1 = none) ∧
    (fault = false →
      (get now name key fault st).1 = diskGet st.disk name key) := by
  have h := get_fst now name key fault st hwf
  refine ⟨h, ?_, ?_⟩
  · intro hf; rw [h, hf]; simp
  · intro hf; rw [h, hf]; simp

/-- Witness for C6 on a store with persisted data. -/
theorem claim6_witness :
    WF colonData ∧
    ((get 0 "a" "b" false colonData).1 =
        (if false then none else diskGet colonData.disk "a" "b") ∧
      ((false : Bool) = true → (get 0 "a" "b" false colonData).1 = none) ∧
      ((false : Bool) = false →
        (get 0 "a" "b" false colonData).1 = diskGet colonData.disk "a" "b")) :=
  ⟨by decide, claim6_get_collapses 0 "a" "b" false colonData (by decide)⟩

/-- C7: `write` and `del` report success exactly when the underlying
persistence call does not fail (a failure becomes `false`, never an
exception, with no retry), and a fault-free `del` always succeeds — in
particular on a key that was never present. -/
theorem claim7_write_del_status (now : Int) (name key value : String)
    (fault : Bool) (st : EngineState) :
    ((write now name key value fault st).1 = true ↔ fault = false) ∧
    ((del now name key fault st).1 = true ↔ fault = false) ∧
    (del now name key false st).1 = true := by
  refine ⟨?_, ?_, ?_⟩
  · rw [write_fst]; cases fault <;> simp
  · rw [del_fst]; cases fault <;> simp
  · rw [del_fst]; rfl

/-- C10: the CRUD operations on store `n` never remove a registry entry,
never replace an existing entry's handle, and leave the registry entry of
every other name `m` untouched; only the sweep and stop remove entries. -/
theorem claim10_crud_frame (now : Int) (n m key value : String)
    (fault : Bool) (st : EngineState) (hm : m ≠ n) :
    ((∀ x, (alookup st.stores x).isSome →
        (alookup (get now n key fault st).2.stores x).isSome) ∧
      (∀ d, alookup st.stores n = some d →
        ∃ d', alookup (get now n key fault st).2.stores n = some d' ∧
          d'.db = d.db) ∧
      alookup (get now n key fault st).2.stores m = alookup st.stores m) ∧
    ((∀ x, (alookup st.stores x).isSome →
        (alookup (write now n key value fault st).2.stores x).isSome) ∧
      (∀ d, alookup st.stores n = some d →
        ∃ d', alookup (write now n key value fault st).2.stores n = some d' ∧
          d'.db = d.db) ∧
      alookup (write now n key value fault st).2.stores m =
        alookup st.stores m) ∧
    ((∀ x, (alookup st.stores x).isSome →
        (alookup (del now n key fault st).2.stores x).isSome) ∧
      (∀ d, alookup st.stores n = some d →
        ∃ d', alookup (del now n key fault st).2.stores n = some d' ∧
          d'.db = d.db) ∧
      alookup (del now n key fault st).2.stores m = alookup st.stores m) := by
  have hbase := getStore_registry_frame now n m st hm
  refine ⟨?_, ?_, ?_⟩
  · rw [get_snd]
    exact hbase
  · rw [(write_snd_stores now n key value fault st).1]
    exact hbase
  · rw [(del_snd_stores now n key fault st).1]
    exact hbase

/-- Witness for C10 with distinct names on an engine with one open
store. -/
theorem claim10_witness :
    ("s" : String) ≠ "n" ∧
    ((∀ x, (alookup oneOpen.stores x).isSome →
        (alookup (get 3 "n" "k" false oneOpen).2.stores x).isSome) ∧
      (∀ d, alookup oneOpen.stores "n" = some d →
        ∃ d', alookup (get 3 "n" "k" false oneOpen).2.stores "n" = some d' ∧
          d'.db = d.db) ∧
      alookup (get 3 "n" "k" false oneOpen).2.stores "s" =
        alookup oneOpen.stores "s") ∧
    ((∀ x, (alookup oneOpen.stores x).isSome →
        (alookup (write 3 "n" "k" "v" false oneOpen).2.stores x).isSome) ∧
      (∀ d, alookup oneOpen.stores "n" = some d →
        ∃ d', alookup (write 3 "n" "k" "v" false oneOpen).2.stores "n" =
          some d' ∧ d'.db = d.db) ∧
      alookup (write 3 "n" "k" "v" false oneOpen).2.stores "s" =
        alookup oneOpen.stores "s") ∧
    ((∀ x, (alookup oneOpen.stores x).isSome →
        (alookup (del 3 "n" "k" false oneOpen).2.stores x).isSome) ∧
      (∀ d, alookup oneOpen.stores "n" = some d →
        ∃ d', alookup (del 3 "n" "k" false oneOpen).2.stores "n" = some d' ∧
          d'.db = d.db) ∧
      alookup (del 3 "n" "k" false oneOpen).2.stores "s" =
        alookup oneOpen.stores "s") :=
  ⟨by decide, claim10_crud_frame 3 "n" "s" "k" "v" false oneOpen (by decide)⟩

/-- C4: a fault-free sweep at time `now` raises nothing, removes exactly
the registry entries with `now - lastAccessed > keepOpenInterval`, closes
exactly their handles (in registry order), and any entry whose access time
is within the threshold survives the sweep unchanged — a store refreshed
within the threshold before the sweep is never evicted by it. -/
theorem claim4_sweep_exact (now : Int) (st : EngineState) (hwf : WF st)
    (hnd : KeysNodup st) :
    (checkStorage now [] st).2 = false ∧
    (checkStorage now [] st).1.stores =
      st.stores.filter
        (fun p => ¬ now - p.2.lastAccessed > st.keepOpenInterval) ∧
    (checkStorage now [] st).1.closeLog =
      st.closeLog ++
        ((st.stores.filter
            (fun p => now - p.2.lastAccessed > st.keepOpenInterval)).map
          (fun p => p.2.db)) ∧
    ∀ n d, alookup st.stores n = some d →
      now - d.lastAccessed ≤ st.keepOpenInterval →
      alookup (checkStorage now [] st).1.stores n = some d := by
  have hok : ∀ d ∈ (st.stores.filter
      (fun p => now - p.2.lastAccessed > st.keepOpenInterval)).map Prod.snd,
      d.name ∉ ([] : List String) := by simp
  have hcs : checkStorage now [] st =
      closeStores [] ((st.stores.filter
        (fun p => now - p.2.lastAccessed > st.keepOpenInterval)).map
        Prod.snd) st := rfl
  rw [hcs, closeStores_ok [] _ hok st]
  have hstores := sweep_fold_eq_filter now st hwf hnd
  refine ⟨rfl, hstores, ?_, ?_⟩
  · show st.closeLog ++ ((st.stores.filter
        (fun p => now - p.2.lastAccessed > st.keepOpenInterval)).map
          Prod.snd).map (fun d => d.db) = _
    rw [List.map_map]
    rfl
  · intro n d hd hle
    show alookup (((st.stores.filter
        (fun p => now - p.2.lastAccessed > st.keepOpenInterval)).map
      Prod.snd).foldl (fun s d => adel s d.name) st.stores) n = some d
    rw [hstores]
    apply alookup_filter_keep _ n d st.stores hd
    simp only [decide_eq_true_eq]
    exact not_lt.mpr hle

/-- Witness for C4 on a started engine with two idle stores. -/
theorem claim4_witness :
    WF twoIdle ∧ KeysNodup twoIdle ∧
    ((checkStorage 100 [] twoIdle).2 = false ∧
      (checkStorage 100 [] twoIdle).1.stores =
        twoIdle.stores.filter
          (fun p => ¬ 100 - p.2.lastAccessed > twoIdle.keepOpenInterval) ∧
      (checkStorage 100 [] twoIdle).1.closeLog =
        twoIdle.closeLog ++
          ((twoIdle.stores.filter
              (fun p => 100 - p.2.lastAccessed > twoIdle.keepOpenInterval)).map
            (fun p => p.2.db)) ∧
      ∀ n d, alookup twoIdle.stores n = some d →
        100 - d.lastAccessed ≤ twoIdle.keepOpenInterval →
        alookup (checkStorage 100 [] twoIdle).1.stores n = some d) :=
  ⟨by decide, by decide, claim4_sweep_exact 100 twoIdle (by decide) (by decide)⟩

/-- C2 counterexample: with stores "a" and "b" both idle and the close of
"a" rejecting, checkStorage raises to its caller (its promise rejects),
the failing entry "a" is not removed from the registry, and "b" is neither
closed nor removed — contradicting every part of the claim. -/
theorem claim2_counterexample :
    (checkStorage 100 ["a"] twoIdle).2 = true ∧
    alookup (checkStorage 100 ["a"] twoIdle).1.stores "a" =
      some { lastAccessed := 0, name := "a", db := 0 } ∧
    alookup (checkStorage 100 ["a"] twoIdle).1.stores "b" =
      some { lastAccessed := 0, name := "b", db := 1 } ∧
    (checkStorage 100 ["a"] twoIdle).1.closeLog = [0] := by decide

/-- C2 amended: when the close of a selected idle entry rejects, the
failure propagates out of checkStorage; the selected entries before it
are closed and removed, the failing entry's close is invoked
(its handle is appended to the close log) but the entry itself stays in
the registry, and the selected entries after it are neither closed nor
removed. -/
theorem claim2_sweep_close_failure (now : Int) (faults : List String)
    (st : EngineState) (pre post : List StoreDetails) (bad : StoreDetails)
    (hsel : (st.stores.filter
        (fun p => now - p.2.lastAccessed > st.keepOpenInterval)).map
        Prod.snd = pre ++ bad :: post)
    (hpre : ∀ d ∈ pre, d.name ∉ faults) (hbad : bad.name ∈ faults) :
    checkStorage now faults st =
      ({ (closeStores faults pre st).1 with
          closeLog := (closeStores faults pre st).1.closeLog ++ [bad.db] },
        true) ∧
    (bad.name ∉ pre.map (fun d => d.name) →
      alookup (checkStorage now faults st).1.stores bad.name =
        alookup st.stores bad.name) := by
  have hcs : checkStorage now faults st =
      closeStores faults ((st.stores.filter
        (fun p => now - p.2.lastAccessed > st.keepOpenInterval)).map
        Prod.snd) st := rfl
  rw [hcs, hsel, closeStores_fault faults pre bad post hpre hbad st]
  refine ⟨rfl, ?_⟩
  intro hni
  rw [closeStores_ok faults pre hpre st]
  show alookup (pre.foldl (fun acc d => adel acc d.name) st.stores) bad.name =
    alookup st.stores bad.name
  exact alookup_foldl_adel_details_ne pre st.stores bad.name hni

/-- Witness for C2's amended theorem: "b" is the failing close, "a" was
selected before it. -/
theorem claim2_witness :
    ((twoIdle.stores.filter
        (fun p => 100 - p.2.lastAccessed > twoIdle.keepOpenInterval)).map
        Prod.snd =
      [{ lastAccessed := 0, name := "a", db := 0 }] ++
        { lastAccessed := 0, name := "b", db := 1 } :: []) ∧
    (∀ d ∈ [({ lastAccessed := 0, name := "a", db := 0 } : StoreDetails)],
      d.name ∉ ["b"]) ∧
    ("b" : String) ∈ ["b"] ∧
    (checkStorage 100 ["b"] twoIdle =
      ({ (closeStores ["b"]
            [{ lastAccessed := 0, name := "a", db := 0 }] twoIdle).1 with
          closeLog := (closeStores ["b"]
            [{ lastAccessed := 0, name := "a", db := 0 }] twoIdle).1.closeLog
            ++ [1] }, true) ∧
      ("b" ∉ ([({ lastAccessed := 0, name := "a", db := 0 } : StoreDetails)].map
          (fun d => d.name)) →
        alookup (checkStorage 100 ["b"] twoIdle).1.stores "b" =
          alookup twoIdle.stores "b")) :=
  ⟨by decide, by decide, by decide,
    claim2_sweep_close_failure 100 ["b"] twoIdle
      [{ lastAccessed := 0, name := "a", db := 0 }]
      [] { lastAccessed := 0, name := "b", db := 1 }
      (by decide) (by decide) (by decide)⟩

/-- C3 counterexample: stop closes the handle of store "s" but the
registry map still contains the entry afterwards — the entry map is not
cleared by stop. -/
theorem claim3_counterexample :
    (stop [] oneOpen).1.closeLog = [0] ∧
    (stop [] oneOpen).1.stores =
      [("s", { lastAccessed := 0, name := "s", db := 0 })] ∧
    (stop [] oneOpen).1.stores ≠ [] := by decide

/-- C3 amended: after a stop whose closes all succeed, the sweep timer is
cancelled and the close of every entry present at the call was invoked
exactly once (the handles appended to the close log are exactly the
registry's handles, in order, each once), but the registry's entry map is
left unchanged — it is not cleared. -/
theorem claim3_stop_closes_all (st : EngineState)
    (hnd : (st.stores.map (fun p => p.2.db)).Nodup) :
    (stop [] st).2 = false ∧
    (stop [] st).1.stores = st.stores ∧
    (stop [] st).1.closeStorageTimer = none ∧
    (stop [] st).1.closeLog =
      st.closeLog ++ st.stores.map (fun p => p.2.db) ∧
    ∀ p ∈ st.stores,
      (st.stores.map (fun q => q.2.db)).count p.2.db = 1 := by
  have hok : ∀ d ∈ st.stores.map Prod.snd, d.name ∉ ([] : List String) := by
    simp
  have hstop : stop [] st =
      stopCloseAll [] (st.stores.map Prod.snd)
        { st with closeStorageTimer := none } := rfl
  rw [hstop, stopCloseAll_ok [] _ hok]
  refine ⟨rfl, rfl, rfl, ?_, ?_⟩
  · show st.closeLog ++ (st.stores.map Prod.snd).map (fun d => d.db) = _
    rw [List.map_map]
    rfl
  · intro p hp
    exact List.count_eq_one_of_mem hnd (List.mem_map_of_mem _ hp)

/-- Witness for C3's amended theorem on the two-store engine. -/
theorem claim3_witness :
    (twoIdle.stores.map (fun p => p.2.db)).Nodup ∧
    ((stop [] twoIdle).2 = false ∧
      (stop [] twoIdle).1.stores = twoIdle.stores ∧
      (stop [] twoIdle).1.closeStorageTimer = none ∧
      (stop [] twoIdle).1.closeLog =
        twoIdle.closeLog ++ twoIdle.stores.map (fun p => p.2.db) ∧
      ∀ p ∈ twoIdle.stores,
        (twoIdle.stores.map (fun q => q.2.db)).count p.2.db = 1) :=
  ⟨by decide, claim3_stop_closes_all twoIdle (by decide)⟩

/-- C8: with idle threshold 0, start does not arm the sweep timer
(`start` returns the state unchanged) and from then on no event sequence
ever invokes a handle close or removes a registry entry — stores are only
closed at shutdown; with a non-zero threshold, start arms the periodic
sweep with period equal to the threshold. -/
theorem claim8_start_policy (st : EngineState)
    (hz : st.keepOpenInterval = 0) (ht : st.closeStorageTimer = none) :
    (start st).1 = true ∧ (start st).2 = st ∧
    (∀ es : List Event,
      (run (start st).2 es).closeLog = st.closeLog ∧
      ∀ n, (alookup st.stores n).isSome →
        (alookup (run (start st).2 es).stores n).isSome) ∧
    ∀ st2 : EngineState, st2.keepOpenInterval ≠ 0 →
      (start st2).1 = true ∧
      (start st2).2.closeStorageTimer = some st2.keepOpenInterval := by
  have hstart : start st = (true, st) := by
    unfold start
    rw [if_neg (by simp [hz])]
  refine ⟨by rw [hstart], by rw [hstart], ?_, ?_⟩
  · intro es
    rw [hstart]
    have hr := run_timer_none es st ht
    exact ⟨hr.2.1, hr.2.2⟩
  · intro st2 h2
    unfold start
    rw [if_pos h2]
    exact ⟨rfl, rfl⟩

/-- Witness for C8 on a fresh engine with threshold 0. -/
theorem claim8_witness :
    (initState 0).keepOpenInterval = 0 ∧
    (initState 0).closeStorageTimer = none ∧
    ((start (initState 0)).1 = true ∧ (start (initState 0)).2 = initState 0 ∧
      (∀ es : List Event,
        (run (start (initState 0)).2 es).closeLog = (initState 0).closeLog ∧
        ∀ n, (alookup (initState 0).stores n).isSome →
          (alookup (run (start (initState 0)).2 es).stores n).isSome) ∧
      ∀ st2 : EngineState, st2.keepOpenInterval ≠ 0 →
        (start st2).1 = true ∧
        (start st2).2.closeStorageTimer = some st2.keepOpenInterval) :=
  ⟨rfl, rfl, claim8_start_policy (initState 0) rfl rfl⟩

theorem string_mk_toList (l : List Char) : (String.mk l).toList = l := rfl

/-- C9 counterexample: the id ":x" passes the router's checks and reaches
the core with the empty store name (an entry named "" is created in the
registry), and the id "a:b:c" reads key "b", not key "b:c" — the router
neither splits on the first separator only nor keeps empty name/key
strings away from the core. -/
theorem claim9_counterexample :
    alookup (readRoute (some (String.mk [':', 'x'])) 0 false
        (initState 0)).2.stores "" =
      some { lastAccessed := 0, name := "", db := 0 } ∧
    (readRoute (some (String.mk ['a', ':', 'b', ':', 'c'])) 0 false
        colonData).1 = RouteResult.ok "vb" ∧
    (readRoute (some (String.mk ['a', ':', 'b', ':', 'c'])) 0 false
        colonData).1 ≠ RouteResult.ok "vbc" := by decide

/-- C9 amended: the routes reject a missing id and an id containing no
separator (404, state unchanged, no core call); an id with at least one
separator is passed to the core as its first two split segments, so the
id `name:key:rest` behaves exactly like `name:key` (a key containing the
separator is truncated at it, not preserved), and empty segments are not
rejected — the core can be reached with empty name or key strings. -/
theorem claim9_route_parsing (now : Int) (fault : Bool) (st : EngineState)
    (nameL keyL rest : List Char) (hn : ':' ∉ nameL) (hk : ':' ∉ keyL) :
    (readRoute none now fault st =
        (RouteResult.httpError 404 "No ID specified!", st) ∧
      deleteRoute none now fault st =
        (RouteResult.httpError 404 "Invalid ID!", st)) ∧
    (readRoute (some (String.mk nameL)) now fault st =
        (RouteResult.httpError 404 "Invalid ID!", st) ∧
      deleteRoute (some (String.mk nameL)) now fault st =
        (RouteResult.httpError 404 "Invalid ID", st)) ∧
    (readRoute (some (String.mk (nameL ++ ':' :: keyL ++ ':' :: rest)))
        now fault st =
        readRoute (some (String.mk (nameL ++ ':' :: keyL))) now fault st ∧
      deleteRoute (some (String.mk (nameL ++ ':' :: keyL ++ ':' :: rest)))
        now fault st =
        deleteRoute (some (String.mk (nameL ++ ':' :: keyL))) now fault st) ∧
    ((readRoute (some (String.mk (nameL ++ ':' :: keyL))) now fault st).2 =
        (get now (String.mk nameL) (String.mk keyL) fault st).2 ∧
      (∀ v, (readRoute (some (String.mk (nameL ++ ':' :: keyL)))
          now fault st).1 = RouteResult.ok v ↔
        (get now (String.mk nameL) (String.mk keyL) fault st).1 = some v) ∧
      (deleteRoute (some (String.mk (nameL ++ ':' :: keyL))) now fault st).2 =
        (del now (String.mk nameL) (String.mk keyL) fault st).2) := by
  have hs1 : splitChar ':' (String.mk nameL).toList = [nameL] := by
    rw [string_mk_toList]
    exact splitChar_no_sep ':' nameL hn
  have hs2 : splitChar ':' (String.mk (nameL ++ ':' :: keyL)).toList =
      [nameL, keyL] := by
    rw [string_mk_toList, splitChar_first ':' nameL keyL hn,
      splitChar_no_sep ':' keyL hk]
  have hs3 : splitChar ':'
      (String.mk (nameL ++ ':' :: keyL ++ ':' :: rest)).toList =
      nameL :: keyL :: splitChar ':' rest := by
    rw [string_mk_toList]
    rw [show (nameL ++ ':' :: keyL ++ ':' :: rest : List Char) =
          nameL ++ ':' :: (keyL ++ ':' :: rest) by simp]
    rw [splitChar_first ':' nameL (keyL ++ ':' :: rest) hn,
      splitChar_first ':' keyL rest hk]
  refine ⟨⟨rfl, rfl⟩, ⟨?_, ?_⟩, ⟨?_, ?_⟩, ?_, ?_, ?_⟩
  · simp only [readRoute]
    rw [hs1]
  · simp only [deleteRoute]
    rw [hs1]
  · simp only [readRoute]
    rw [hs2, hs3]
  · simp only [deleteRoute]
    rw [hs2, hs3]
  · simp only [readRoute]
    rw [hs2]
    cases hget : (get now (String.mk nameL) (String.mk keyL) fault st).1 <;>
      simp [hget]
  · intro v
    simp only [readRoute]
    rw [hs2]
    cases hget : (get now (String.mk nameL) (String.mk keyL) fault st).1 <;>
      simp [hget]
  · simp only [deleteRoute]
    rw [hs2]
    cases hr : (del now (String.mk nameL) (String.mk keyL) fault st).1 <;>
      simp [hr]

/-- Witness for C9's amended theorem at concrete segments. -/
theorem claim9_witness :
    (':' ∉ ['a']) ∧ (':' ∉ ['b']) ∧
    ((readRoute none 0 false colonData =
        (RouteResult.httpError 404 "No ID specified!", colonData) ∧
      deleteRoute none 0 false colonData =
        (RouteResult.httpError 404 "Invalid ID!", colonData)) ∧
    (readRoute (some (String.mk ['a'])) 0 false colonData =
        (RouteResult.httpError 404 "Invalid ID!", colonData) ∧
      deleteRoute (some (String.mk ['a'])) 0 false colonData =
        (RouteResult.httpError 404 "Invalid ID", colonData)) ∧
    (readRoute (some (String.mk (['a'] ++ ':' :: ['b'] ++ ':' :: ['c'])))
        0 false colonData =
        readRoute (some (String.mk (['a'] ++ ':' :: ['b']))) 0 false
          colonData ∧
      deleteRoute (some (String.mk (['a'] ++ ':' :: ['b'] ++ ':' :: ['c'])))
        0 false colonData =
        deleteRoute (some (String.mk (['a'] ++ ':' :: ['b']))) 0 false
          colonData) ∧
    ((readRoute (some (String.mk (['a'] ++ ':' :: ['b']))) 0 false
        colonData).2 =
        (get 0 (String.mk ['a']) (String.mk ['b']) false colonData).2 ∧
      (∀ v, (readRoute (some (String.mk (['a'] ++ ':' :: ['b']))) 0 false
          colonData).1 = RouteResult.ok v ↔
        (get 0 (String.mk ['a']) (String.mk ['b']) false colonData).1 =
          some v) ∧
      (deleteRoute (some (String.mk (['a'] ++ ':' :: ['b']))) 0 false
          colonData).2 =
        (del 0 (String.mk ['a']) (String.mk ['b']) false colonData).2)) :=
  ⟨by decide, by decide,
    claim9_route_parsing 0 false colonData ['a'] ['b'] ['c']
      (by decide) (by decide)⟩

end CNStorageEngine
